import Mathlib

/-!
Verification of the useful-scripts repository: a PDF merger (`merge_pdfs.py`)
and a PDF title stamper (`add_titles_to_pdfs.py`).

Filenames and console inputs are modelled as `String`.  The PDF library and
the filesystem are modelled abstractly: each candidate file carries the
outcome of the fallible operations performed on it (the OS-level `open`, the
PDF parse, the save), and a parsed document is its list of pages.  All
character-level operations (`str.lower`, `str.isdigit`, `\d` in a regex)
are modelled on the ASCII range, which the scripts' own literals live in.
-/

deriving instance DecidableEq for Except

/-- A token of the natural-sort key: `re.split(r'(\d+)', filename)` yields
literal substrings and maximal digit runs; the loop in `natural_sort_key`
(`merge_pdfs.py` lines 27-32) turns digit runs into integers and lowercases
the rest. -/
inductive NToken where
  | str (s : List Char)
  | num (n : Nat)
deriving DecidableEq

/-- True on literal tokens, false on integer tokens. -/
def NToken.isStr : NToken → Bool
  | .str _ => true
  | .num _ => false

/-- Value of a decimal digit run, as computed by Python's `int`. -/
def digitsToNat (p : List Char) : Nat :=
  p.foldl (fun n c => 10 * n + (c.toNat - 48)) 0

/-- One iteration of the conversion loop in `natural_sort_key`:
`part.isdigit()` holds of a nonempty all-digit string, in which case
`int(part)` is used; otherwise `part.lower()`. -/
def convertPart (p : List Char) : NToken :=
  if p ≠ [] ∧ p.all Char.isDigit then NToken.num (digitsToNat p)
  else NToken.str (p.map Char.toLower)

/-- POSIX `os.path.basename`: the part of the path after the last slash. -/
def basenameChars (cs : List Char) : List Char :=
  (cs.reverse.takeWhile (fun c => c != '/')).reverse

/-- The length of `dropWhile` output never exceeds the input length. -/
theorem dropWhile_length_le (p : α → Bool) : ∀ l : List α, (l.dropWhile p).length ≤ l.length
  | [] => Nat.le_refl 0
  | c :: cs => by
    rw [List.dropWhile_cons]
    by_cases h : p c = true
    · simp only [h, if_true]
      exact Nat.le_succ_of_le (dropWhile_length_le p cs)
    · simp only [h, if_false]
      exact Nat.le_refl _

/-- The scan performed by `re.split(r'(\d+)', filename)`: left to right; at
a digit, emit the pending non-digit part and the maximal digit run starting
there, then continue after the run; the parts before, between and after runs
— possibly empty — are kept, as is each captured run.  `acc` is the reversed
portion of the current non-digit part already scanned.  The scan consumes at
least one character per step, so it recurses structurally on the remaining
length, which `splitDigitRuns` passes in; `splitGo_fuel` shows any
sufficient bound gives the same result. -/
def splitGo : Nat → List Char → List Char → List (List Char)
  | _, acc, [] => [acc.reverse]
  | 0, acc, _ :: _ => [acc.reverse]
  | fuel + 1, acc, c :: cs =>
    if c.isDigit then
      acc.reverse :: (c :: cs.takeWhile Char.isDigit) :: splitGo fuel [] (cs.dropWhile Char.isDigit)
    else
      splitGo fuel (c :: acc) cs

/-- The full `re.split(r'(\d+)', ·)` with the digit runs captured, plus the pending
non-digit part `acc`. -/
def splitDigitRuns (acc cs : List Char) : List (List Char) :=
  splitGo cs.length acc cs

/-- The length bound passed to `splitGo` is irrelevant once sufficient. -/
theorem splitGo_fuel : ∀ (n m : Nat) (acc cs : List Char),
    cs.length ≤ n → cs.length ≤ m → splitGo n acc cs = splitGo m acc cs := by
  intro n
  induction n with
  | zero =>
    intro m acc cs hn _
    have hcs : cs = [] := List.length_eq_zero.1 (Nat.le_zero.1 hn)
    subst hcs
    cases m <;> simp [splitGo]
  | succ n ih =>
    intro m acc cs hn hm
    cases cs with
    | nil => cases m <;> simp [splitGo]
    | cons c cs' =>
      cases m with
      | zero => simp [List.length_cons] at hm
      | succ m' =>
        have hn' : cs'.length ≤ n := by simp [List.length_cons] at hn; omega
        have hm' : cs'.length ≤ m' := by simp [List.length_cons] at hm; omega
        simp only [splitGo]
        by_cases hc : c.isDigit = true
        · rw [if_pos hc, if_pos hc,
            ih m' [] _ (le_trans (dropWhile_length_le _ _) hn')
              (le_trans (dropWhile_length_le _ _) hm')]
        · rw [if_neg hc, if_neg hc, ih m' (c :: acc) cs' hn' hm']

/-- Shallow embedding of `natural_sort_key` (`merge_pdfs.py` lines 20-33):
split `os.path.basename(s)` at every maximal digit run, then convert each
part. -/
def natural_sort_key (s : String) : List NToken :=
  (splitDigitRuns [] (basenameChars s.data)).map convertPart

/-- Measure lemma for `specKey`: consuming the literal part before the first
digit run and the run itself strictly shrinks a string containing a digit. -/
theorem specKey_measure : ∀ cs : List Char, cs.any Char.isDigit = true →
    ((cs.dropWhile fun c => !c.isDigit).dropWhile Char.isDigit).length < cs.length
  | c :: cs', h => by
    by_cases hc : c.isDigit = true
    · have h1 : List.dropWhile (fun c => !c.isDigit) (c :: cs') = c :: cs' := by
        rw [List.dropWhile_cons]
        simp [hc]
      rw [h1, List.dropWhile_cons]
      simp only [hc, if_true, List.length_cons]
      exact Nat.lt_succ_of_le (dropWhile_length_le Char.isDigit cs')
    · have h1 : List.dropWhile (fun c => !c.isDigit) (c :: cs') =
          List.dropWhile (fun c => !c.isDigit) cs' := by
        rw [List.dropWhile_cons]
        simp [hc]
      have h2 : cs'.any Char.isDigit = true := by
        simp only [List.any_cons, hc, Bool.false_or] at h
        exact h
      rw [h1, List.length_cons]
      exact Nat.lt_succ_of_lt (specKey_measure cs' h2)

/-- Key built the way the spec describes it (§4.1): split the base name at
every maximal run of decimal digits; each run becomes a parsed non-negative
integer token and every other (possibly empty) substring becomes a
lowercase-normalized literal token, in original order.  Written as its own
recursion — peel the literal before the first maximal digit run, then the
run, then repeat — to be compared with the implementation-side
`natural_sort_key`. -/
def specKey (cs : List Char) : List NToken :=
  if h : cs.any Char.isDigit = true then
    let lit := cs.takeWhile fun c => !c.isDigit
    let rest := cs.dropWhile fun c => !c.isDigit
    NToken.str (lit.map Char.toLower) ::
      NToken.num (digitsToNat (rest.takeWhile Char.isDigit)) ::
      specKey (rest.dropWhile Char.isDigit)
  else
    [NToken.str (cs.map Char.toLower)]
termination_by cs.length
decreasing_by
  exact specKey_measure cs h

/-- Python string `<`: lexicographic comparison of code points, a shorter
string preceding its extensions. -/
def strLt : List Char → List Char → Bool
  | _, [] => false
  | [], _ :: _ => true
  | c :: cs, d :: ds => decide (c < d) || (c == d && strLt cs ds)

/-- Python `<` on key tokens.  Comparing an integer with a string raises
`TypeError` in Python 3; the alternation theorem for claim C10 shows two
keys never present that case at a common position, so the mixed cases are
modelled as `false`. -/
def ntokLt : NToken → NToken → Bool
  | .num a, .num b => decide (a < b)
  | .str a, .str b => strLt a b
  | _, _ => false

/-- Python list `<`: elementwise comparison, a shorter list preceding its
extensions. -/
def keyLt : List NToken → List NToken → Bool
  | _, [] => false
  | [], _ :: _ => true
  | x :: xs, y :: ys => ntokLt x y || (x == y && keyLt xs ys)

/-- Non-strict order used to model the stable `pdf_files.sort(key=natural_sort_key)`. -/
def keyLe (k1 k2 : List NToken) : Bool := !keyLt k2 k1

/-- Bool test that the first character list is an initial segment of the
second. -/
def charsLeading : List Char → List Char → Bool
  | [], _ => true
  | _ :: _, [] => false
  | a :: as, b :: bs => a == b && charsLeading as bs

/-- Python `str.endswith`. -/
def endsWithS (s pat : String) : Bool := charsLeading pat.data.reverse s.data.reverse

/-- Python `str.startswith`. -/
def startsWithS (s pat : String) : Bool := charsLeading pat.data s.data

/-- Python `str.strip()`: remove leading and trailing whitespace. -/
def stripS (s : String) : String :=
  String.mk ((s.data.dropWhile Char.isWhitespace).reverse.dropWhile Char.isWhitespace).reverse

/-- One directory entry seen by the merger, with the outcomes of the two
fallible operations performed on it: `open(pdf, 'rb')` at line 61 (OS
level) and `PdfReader(f, strict=False)` at line 67 (parse level, yielding
the file's pages on success).  Pages are abstract identifiers. -/
structure Entry where
  name : String
  isFile : Bool
  openResult : Except String Unit
  parseResult : Except String (List Nat)
deriving DecidableEq

/-- The selection `glob.glob(os.path.join(folder_path, "*.pdf"))` filtered
by `os.path.isfile` (`merge_pdfs.py` lines 41-42).  POSIX glob is
case-sensitive, and the `*` of the `glob` module does not match a leading
dot. -/
def mergerSelects (e : Entry) : Bool :=
  !(startsWithS e.name ".") && endsWithS e.name ".pdf" && e.isFile

/-- Insertion of one entry into an already sorted list: it goes before the
first element it is `le`-related to, hence after every earlier element with
an equal key. -/
def insertSorted (le : Entry → Entry → Bool) (e : Entry) : List Entry → List Entry
  | [] => [e]
  | f :: fs => if le e f then e :: f :: fs else f :: insertSorted le e fs

/-- Stable sort modelling Python's stable `list.sort` (Timsort): for the
total preorder the natural-sort key induces (totality is proved with claim
C10), every stable sort produces the same list, so insertion sort is a
faithful model. -/
def sortEntries (le : Entry → Entry → Bool) : List Entry → List Entry
  | [] => []
  | e :: es => insertSorted le e (sortEntries le es)

/-- The per-file loop of `merge_pdfs_in_folder` (lines 57-71).  Returns the
accumulated pages, the printed lines, and `some msg` when an exception
escaped to the outer handler: the `open` call at line 61 sits outside the
inner `try`, so its failure aborts the loop, while a parse failure is caught
per file (lines 69-71), prints a warning naming the file, and lets the loop
continue. -/
def mergeLoop : List Entry → List Nat → List String → List Nat × List String × Option String
  | [], pages, log => (pages, log, none)
  | f :: rest, pages, log =>
    let log2 := log ++ ["Adding " ++ f.name ++ "..."]
    match f.openResult with
    | .error e => (pages, log2, some e)
    | .ok _ =>
      match f.parseResult with
      | .ok ps => mergeLoop rest (pages ++ ps) log2
      | .error e => mergeLoop rest pages (log2 ++
          ["  [WARNING] Could not read " ++ f.name ++ ": " ++ e, "  Skipping this file."])

/-- Observable outcome of one run of the merger, exit code included
(`sys.exit` at lines 38 and 48; a normal return reaches the end of `main`,
so the process exits 0).  `inputs` is the sorted input list the loop
iterates, `outputPages` is the content of the output file when the final
write succeeded. -/
structure MergeRun where
  exitCode : Nat
  inputs : List Entry
  outputPages : Option (List Nat)
  wrote : Bool
  log : List String
deriving DecidableEq

/-- Shallow embedding of `merge_pdfs_in_folder` (lines 35-83).  The folder
is given as its entry list plus an `isDir` flag, and `writeResult` is the
outcome of `merger.write(output_path)`.  The comparison
`os.path.abspath(f) != os.path.abspath(output_path)` reduces to name
inequality: every globbed path is `folder_path/name` for the same folder
component, with names free of separators and dot components, as is the
output name `"ALL.pdf"` the script always uses. -/
def merge_pdfs_in_folder (folderPath : String) (isDir : Bool) (entries : List Entry)
    (writeResult : Except String Unit) (output_name : String) : MergeRun :=
  if !isDir then
    ⟨1, [], none, false, ["Error: Directory '" ++ folderPath ++ "' does not exist."]⟩
  else
    let pdf_files := (entries.filter mergerSelects).filter fun e => e.name != output_name
    if pdf_files.isEmpty then
      ⟨0, [], none, false, ["No PDF files found to merge."]⟩
    else
      let sorted := sortEntries
        (fun a b => keyLe (natural_sort_key a.name) (natural_sort_key b.name)) pdf_files
      match mergeLoop sorted [] [] with
      | (pages, log, abortMsg) =>
        match abortMsg with
        | some e => ⟨0, sorted, none, false, log ++ ["Failed to write merged PDF: " ++ e]⟩
        | none =>
          match writeResult with
          | .ok _ => ⟨0, sorted, some pages, true,
              log ++ ["Writing merged PDF...",
                "Merge complete! Saved as '" ++ output_name ++ "'."]⟩
          | .error e => ⟨0, sorted, none, false,
              log ++ ["Writing merged PDF...", "Failed to write merged PDF: " ++ e]⟩

/-- A text insertion performed by `page.insert_text` in `add_title_to_pdf`
(`add_titles_to_pdfs.py` lines 22-28): position, text, font size, color,
and the fixed font name `"helv"`.  Every numeric parameter the scripts pass
is integral, so coordinates, sizes and color components are modelled as
integers. -/
structure Stamp where
  pos : Int × Int
  text : String
  fontsize : Int
  color : Int × Int × Int
  fontname : String
deriving DecidableEq

/-- One candidate file of the title stamper: its name, the outcome of
`fitz.open` (the existing page contents on success, each page being the
list of its text insertions), and the outcome of `doc.save` at the output
path. -/
structure SFile where
  name : String
  parseResult : Except String (List (List Stamp))
  saveResult : Except String Unit
deriving DecidableEq

/-- Shallow embedding of `add_title_to_pdf` (lines 5-37): on a successful
open, every page receives the title text inserted at the given position,
size and color in font `"helv"`, and the document is saved to the output
path; any exception — from the open or from the save — is caught, an error
line naming the input path is printed, and `False` is returned.  The result
is (saved document if any, returned flag, printed lines). -/
def add_title_to_pdf (input_path : String) (parseResult : Except String (List (List Stamp)))
    (saveResult : Except String Unit) (title_text : String) (font_size : Int)
    (position : Int × Int) (color : Int × Int × Int) :
    Option (List (List Stamp)) × Bool × List String :=
  match parseResult with
  | .error e => (none, false, ["  ✗ Error processing " ++ input_path ++ ": " ++ e])
  | .ok pages =>
    let stamped := pages.map fun pg => pg ++ [⟨position, title_text, font_size, color, "helv"⟩]
    match saveResult with
    | .ok _ => (some stamped, true, [])
    | .error e => (none, false, ["  ✗ Error processing " ++ input_path ++ ": " ++ e])

/-- Model of `pathlib.PurePath.stem`: the final path component without its suffix,
the suffix being the part from the last dot on, provided that dot is
neither the first nor the last character of the name. -/
def stemChars (name : List Char) : List Char :=
  let tail := name.reverse.takeWhile fun c => c != '.'
  if tail.length == name.length then name
  else
    let i := name.length - 1 - tail.length
    if 0 < i ∧ i < name.length - 1 then name.take i else name

/-- The stem of a filename given as a string. -/
def stemStr (name : String) : String := String.mk (stemChars name.data)

/-- Observable outcome of one run of `process_pdfs_in_directory`.
`processed` is the list the per-file loop iterates; `written` are the
(path, content) pairs saved into the `titled` subdirectory. -/
structure StampRun where
  proceeded : Bool
  processed : List SFile
  written : List (String × List (List Stamp))
  successCount : Nat
  log : List String
deriving DecidableEq

/-- Loop body of `process_pdfs_in_directory` (lines 81-96): derive the
title from the filename with `pdf_file.stem`, stamp into
`titled/<original name>`, and count successes; a failed file only
contributes its error line. -/
def stampStep (dir : String) (font_size : Int) (position : Int × Int)
    (color : Int × Int × Int)
    (acc : List (String × List (List Stamp)) × Nat × List String) (f : SFile) :
    List (String × List (List Stamp)) × Nat × List String :=
  let title := stemStr f.name
  let outPath := dir ++ "/titled/" ++ f.name
  let head := ["📄 Processing: " ++ f.name, "   Title: '" ++ title ++ "'"]
  match add_title_to_pdf (dir ++ "/" ++ f.name) f.parseResult f.saveResult title
      font_size position color with
  | (some doc, true, _) =>
      (acc.1 ++ [(outPath, doc)], acc.2.1 + 1,
        acc.2.2 ++ head ++ ["   ✅ Saved to: titled/" ++ f.name])
  | (_, _, errLines) => (acc.1, acc.2.1, acc.2.2 ++ head ++ errLines)

/-- Shallow embedding of `process_pdfs_in_directory` (lines 39-100).  The
directory is given by its existence and is-directory flags, the outcome of
`mkdir(exist_ok=True)` for the fixed `titled` subdirectory, and its entry
list in directory order; `path.glob` is case-sensitive on POSIX, so the
input set is the `*.pdf` matches followed by the `*.PDF` matches. -/
def process_pdfs_in_directory (directory_path : String) (pathExists : Bool)
    (pathIsDir : Bool) (mkdirResult : Except String Unit) (entries : List SFile)
    (font_size : Int) (position : Int × Int) (color : Int × Int × Int) : StampRun :=
  if !pathExists then
    ⟨false, [], [], 0, ["❌ Error: Directory '" ++ directory_path ++ "' does not exist!"]⟩
  else if !pathIsDir then
    ⟨false, [], [], 0, ["❌ Error: '" ++ directory_path ++ "' is not a directory!"]⟩
  else
    match mkdirResult with
    | .error e => ⟨false, [], [], 0, ["❌ Error creating output directory: " ++ e]⟩
    | .ok _ =>
      let pdf_files := (entries.filter fun f => endsWithS f.name ".pdf") ++
        (entries.filter fun f => endsWithS f.name ".PDF")
      if pdf_files.isEmpty then
        ⟨false, [], [], 0, ["📁 Output directory: " ++ directory_path ++ "/titled",
          "⚠️  No PDF files found in '" ++ directory_path ++ "'"]⟩
      else
        match pdf_files.foldl (stampStep directory_path font_size position color)
            ([], 0, []) with
        | (written, successCount, loopLog) =>
          ⟨true, pdf_files, written, successCount,
            ["📁 Output directory: " ++ directory_path ++ "/titled"] ++ loopLog ++
              ["✨ Processing complete! " ++ toString successCount ++ "/" ++
                toString pdf_files.length ++ " files processed successfully."]⟩

/-- Python `int()` applied to an already-stripped string: an optional sign
followed by one or more ASCII decimal digits.  (Numeric-literal
underscores and non-ASCII digits are outside the model.) -/
def pyInt (t : List Char) : Option Int :=
  match t with
  | '+' :: ds => if ds ≠ [] ∧ ds.all Char.isDigit then some (digitsToNat ds : Int) else none
  | '-' :: ds => if ds ≠ [] ∧ ds.all Char.isDigit then some (-(digitsToNat ds : Int)) else none
  | ds => if ds ≠ [] ∧ ds.all Char.isDigit then some (digitsToNat ds : Int) else none

/-- ASCII model of `str.lower`. -/
def lowerStr (s : String) : String := String.mk (s.data.map Char.toLower)

/-- Shallow embedding of `get_font_size_from_user` (`add_titles_to_pdfs.py`
lines 102-128) as a function of the successive console inputs.  `none`
means the input list was exhausted while the loop was still prompting; the
confirmation prompt for sizes above 200 consumes the next input. -/
def get_font_size_from_user : List String → Option Int
  | [] => none
  | s :: rest =>
    let t := stripS s
    if t = "" then some 30
    else
      match pyInt t.data with
      | none => get_font_size_from_user rest
      | some n =>
        if n ≤ 0 then get_font_size_from_user rest
        else if 200 < n then
          match rest with
          | [] => none
          | c :: rest2 =>
            if lowerStr (stripS c) = "y" then some n else get_font_size_from_user rest2
        else some n

/-- Lemma: `takeWhile` ignores what follows a left part containing a failing element. -/
theorem takeWhile_append_of_exists {p : α → Bool} :
    ∀ (l m : List α), (∃ x ∈ l, p x = false) → (l ++ m).takeWhile p = l.takeWhile p
  | [], _, h => by rcases h with ⟨x, hx, _⟩; cases hx
  | a :: l', m, h => by
    by_cases ha : p a = true
    · have h' : ∃ x ∈ l', p x = false := by
        rcases h with ⟨x, hx, hpx⟩
        rcases List.mem_cons.1 hx with rfl | hx'
        · rw [ha] at hpx; cases hpx
        · exact ⟨x, hx', hpx⟩
      rw [List.cons_append, List.takeWhile_cons_of_pos ha, List.takeWhile_cons_of_pos ha,
        takeWhile_append_of_exists l' m h']
    · rw [List.cons_append, List.takeWhile_cons_of_neg ha, List.takeWhile_cons_of_neg ha]

/-- Lemma: `dropWhile` stops inside a left part containing a failing element. -/
theorem dropWhile_append_of_exists {p : α → Bool} :
    ∀ (l m : List α), (∃ x ∈ l, p x = false) → (l ++ m).dropWhile p = l.dropWhile p ++ m
  | [], _, h => by rcases h with ⟨x, hx, _⟩; cases hx
  | a :: l', m, h => by
    by_cases ha : p a = true
    · have h' : ∃ x ∈ l', p x = false := by
        rcases h with ⟨x, hx, hpx⟩
        rcases List.mem_cons.1 hx with rfl | hx'
        · rw [ha] at hpx; cases hpx
        · exact ⟨x, hx', hpx⟩
      rw [List.cons_append, List.dropWhile_cons_of_pos ha, List.dropWhile_cons_of_pos ha,
        dropWhile_append_of_exists l' m h']
    · rw [List.cons_append, List.dropWhile_cons_of_neg ha, List.dropWhile_cons_of_neg ha,
        List.cons_append]

/-- The first element surviving `dropWhile` fails the predicate. -/
theorem head_dropWhile_false {p : α → Bool} :
    ∀ (l : List α) (a : α) (l' : List α), l.dropWhile p = a :: l' → p a = false
  | [], _, _, h => by cases h
  | b :: l'', a, l', h => by
    by_cases hb : p b = true
    · rw [List.dropWhile_cons_of_pos hb] at h
      exact head_dropWhile_false l'' a l' h
    · rw [List.dropWhile_cons_of_neg hb] at h
      cases h
      exact Bool.eq_false_iff.2 hb

/-- Lemma: `dropWhile` keeps the last element when its output is nonempty. -/
theorem getLast?_dropWhile {p : α → Bool} :
    ∀ (l : List α), l.dropWhile p ≠ [] → (l.dropWhile p).getLast? = l.getLast?
  | [], h => absurd rfl h
  | a :: l', h => by
    by_cases ha : p a = true
    · rw [List.dropWhile_cons_of_pos ha] at h ⊢
      rcases l' with _ | ⟨b, l''⟩
      · simp [List.dropWhile] at h
      · rw [List.getLast?_cons_cons]
        exact getLast?_dropWhile _ h
    · rw [List.dropWhile_cons_of_neg ha]

/-- An element produced by `getLast?` is a member of the list. -/
theorem mem_of_getLast? {l : List α} {x : α} (h : l.getLast? = some x) : x ∈ l := by
  rcases l with _ | ⟨a, l'⟩
  · simp at h
  · have hne : a :: l' ≠ [] := by simp
    rw [List.getLast?_eq_getLast _ hne] at h
    rcases Option.some_inj.1 h with rfl
    exact List.getLast_mem hne

/-- Closed form of one step of `splitDigitRuns`: the next part is the
longest digit-free portion, followed (when a digit remains) by the maximal
digit run that follows it. -/
theorem splitDigitRuns_eq : ∀ (cs acc : List Char),
    splitDigitRuns acc cs =
      if cs.any Char.isDigit = true then
        (acc.reverse ++ cs.takeWhile fun c => !c.isDigit) ::
          ((cs.dropWhile fun c => !c.isDigit).takeWhile Char.isDigit) ::
          splitDigitRuns [] ((cs.dropWhile fun c => !c.isDigit).dropWhile Char.isDigit)
      else [acc.reverse ++ cs]
  | [], acc => by simp [splitDigitRuns, splitGo]
  | c :: cs', acc => by
    by_cases hc : c.isDigit = true
    · have hstep : splitDigitRuns acc (c :: cs') =
          acc.reverse :: (c :: cs'.takeWhile Char.isDigit) ::
            splitGo cs'.length [] (cs'.dropWhile Char.isDigit) := by
        simp [splitDigitRuns, splitGo, hc, List.length_cons]
      rw [hstep,
        splitGo_fuel cs'.length (cs'.dropWhile Char.isDigit).length [] _
          (dropWhile_length_le _ _) (Nat.le_refl _)]
      rw [if_pos (by simp [List.any_cons, hc])]
      simp [List.takeWhile_cons, List.dropWhile_cons, hc, splitDigitRuns]
    · have hstep : splitDigitRuns acc (c :: cs') = splitDigitRuns (c :: acc) cs' := by
        simp [splitDigitRuns, splitGo, hc, List.length_cons]
      rw [hstep, splitDigitRuns_eq cs' (c :: acc)]
      have hany : (c :: cs').any Char.isDigit = cs'.any Char.isDigit := by
        simp [List.any_cons, Bool.eq_false_iff.2 hc]
      rw [hany]
      by_cases h2 : cs'.any Char.isDigit = true
      · rw [if_pos h2, if_pos h2]
        simp [List.takeWhile_cons, List.dropWhile_cons, Bool.eq_false_iff.2 hc,
          List.reverse_cons, List.append_assoc]
      · rw [if_neg h2, if_neg h2]
        simp [List.takeWhile_cons, List.dropWhile_cons, Bool.eq_false_iff.2 hc,
          List.reverse_cons, List.append_assoc]

/-- Lemma: `convertPart` on a digit-free part takes the lowercasing branch. -/
theorem convert_nondigit (p : List Char) (hp : ∀ c ∈ p, c.isDigit = false) :
    convertPart p = NToken.str (p.map Char.toLower) := by
  rw [convertPart, if_neg]
  rintro ⟨hne, hall⟩
  rcases p with _ | ⟨x, xs⟩
  · exact hne rfl
  · have h1 := hp x (List.mem_cons_self x xs)
    have h2 := (List.all_eq_true.1 hall) x (List.mem_cons_self x xs)
    rw [h1] at h2; cases h2

/-- Lemma: `convertPart` on a nonempty all-digit part takes the integer branch. -/
theorem convert_digit (p : List Char) (hne : p ≠ []) (hp : ∀ c ∈ p, c.isDigit = true) :
    convertPart p = NToken.num (digitsToNat p) :=
  by rw [convertPart, if_pos ⟨hne, List.all_eq_true.2 hp⟩]

/-- When a string contains a digit, dropping its digit-free head exposes a
digit. -/
theorem dropWhile_nd_cons (cs : List Char) (h : cs.any Char.isDigit = true) :
    ∃ a t, (cs.dropWhile fun c => !c.isDigit) = a :: t ∧ a.isDigit = true := by
  rcases hx : cs.dropWhile (fun c => !c.isDigit) with _ | ⟨a, t⟩
  · exfalso
    rcases List.any_eq_true.1 h with ⟨x, hm, hd⟩
    have := (List.dropWhile_eq_nil_iff.1 hx) x hm
    simp [hd] at this
  · have ha := head_dropWhile_false _ _ _ hx
    exact ⟨a, t, hx, by simpa using ha⟩

/-- The key computed by the implementation-side splitting agrees with the
spec-side `specKey` on every character list. -/
theorem natKey_spec_aux : ∀ cs : List Char,
    (splitDigitRuns [] cs).map convertPart = specKey cs
  | cs => by
    by_cases h : cs.any Char.isDigit = true
    · rw [splitDigitRuns_eq cs [], if_pos h, specKey, dif_pos h]
      simp only [List.reverse_nil, List.nil_append, List.map_cons]
      have h1 : convertPart (cs.takeWhile fun c => !c.isDigit) =
          NToken.str ((cs.takeWhile fun c => !c.isDigit).map Char.toLower) := by
        refine convert_nondigit _ fun c hc => ?_
        have := List.mem_takeWhile_imp hc
        simpa using this
      have h2 : convertPart ((cs.dropWhile fun c => !c.isDigit).takeWhile Char.isDigit) =
          NToken.num (digitsToNat ((cs.dropWhile fun c => !c.isDigit).takeWhile Char.isDigit)) := by
        rcases dropWhile_nd_cons cs h with ⟨a, t, hx, hd⟩
        refine convert_digit _ ?_ fun c hc => List.mem_takeWhile_imp hc
        rw [hx, List.takeWhile_cons_of_pos hd]
        simp
      rw [h1, h2, natKey_spec_aux ((cs.dropWhile fun c => !c.isDigit).dropWhile Char.isDigit)]
    · rw [splitDigitRuns_eq cs [], if_neg h, specKey, dif_neg h]
      have hall : ∀ c ∈ cs, c.isDigit = false := by
        intro c hc
        by_contra hcc
        exact h (List.any_eq_true.2 ⟨c, hc, by simpa using hcc⟩)
      simp only [List.reverse_nil, List.nil_append, List.map_cons, List.map_nil]
      rw [convert_nondigit cs hall]
termination_by cs => cs.length
decreasing_by
  exact specKey_measure cs h

/-- The implementation key is the spec-side key of the base name. -/
theorem natKey_eq_spec (s : String) :
    natural_sort_key s = specKey (basenameChars s.data) := by
  rw [natural_sort_key]; exact natKey_spec_aux _


/-- Unfolding of `specKey` on a string containing a digit. -/
theorem specKey_pos (cs : List Char) (h : cs.any Char.isDigit = true) :
    specKey cs = NToken.str ((cs.takeWhile fun c => !c.isDigit).map Char.toLower) ::
      NToken.num (digitsToNat ((cs.dropWhile fun c => !c.isDigit).takeWhile Char.isDigit)) ::
      specKey ((cs.dropWhile fun c => !c.isDigit).dropWhile Char.isDigit) := by
  rw [specKey, dif_pos h]

/-- Unfolding of `specKey` on a digit-free string. -/
theorem specKey_neg (cs : List Char) (h : ¬ cs.any Char.isDigit = true) :
    specKey cs = [NToken.str (cs.map Char.toLower)] := by
  rw [specKey, dif_neg h]

theorem specKey_append : ∀ (a d b : List Char),
    (∀ x, a.getLast? = some x → x.isDigit = false) →
    d ≠ [] → (∀ c ∈ d, c.isDigit = true) →
    (∀ x, b.head? = some x → x.isDigit = false) →
    specKey (a ++ d ++ b) = specKey a ++ NToken.num (digitsToNat d) :: specKey b
  | a, d, b => by
    intro hlast hdne hd hhead
    rcases d with _ | ⟨e, d'⟩
    · exact absurd rfl hdne
    have hed : e.isDigit = true := hd e (List.mem_cons_self _ _)
    have htwb : b.takeWhile Char.isDigit = [] := by
      rcases hb : b with _ | ⟨x, xs⟩
      · rfl
      · have hx := hhead x (by rw [hb]; rfl)
        rw [List.takeWhile_cons_of_neg (by simp [hx])]
    have hdwb : b.dropWhile Char.isDigit = b := by
      rcases hb : b with _ | ⟨x, xs⟩
      · rfl
      · have hx := hhead x (by rw [hb]; rfl)
        rw [List.dropWhile_cons_of_neg (by simp [hx])]
    have hd' : ∀ c ∈ d', c.isDigit = true := fun c hc => hd c (List.mem_cons_of_mem _ hc)
    have hrunm : List.takeWhile Char.isDigit (e :: (d' ++ b)) = e :: d' := by
      rw [List.takeWhile_cons_of_pos hed, List.takeWhile_append_of_pos hd', htwb,
        List.append_nil]
    have hdropm : List.dropWhile Char.isDigit (e :: (d' ++ b)) = b := by
      rw [List.dropWhile_cons_of_pos hed, List.dropWhile_append_of_pos hd', hdwb]
    rw [List.append_assoc, List.cons_append]
    by_cases ha : a.any Char.isDigit = true
    · -- `a` itself contains a digit run; both sides peel the same head.
      rcases List.any_eq_true.1 ha with ⟨w, hw, hwd⟩
      have hexa : ∃ c ∈ a, (fun c => !c.isDigit) c = false := ⟨w, hw, by simp [hwd]⟩
      have hane : a ≠ [] := by rintro rfl; simp at ha
      have hgl := List.getLast?_eq_getLast a hane
      have hla : (a.getLast hane).isDigit = false := hlast _ hgl
      rcases dropWhile_nd_cons a ha with ⟨x, t, hx, hxd⟩
      have hrne : a.dropWhile (fun c => !c.isDigit) ≠ [] := by rw [hx]; simp
      have hglr : (a.dropWhile fun c => !c.isDigit).getLast? = a.getLast? :=
        getLast?_dropWhile a hrne
      have hlar : a.getLast hane ∈ a.dropWhile fun c => !c.isDigit :=
        mem_of_getLast? (by rw [hglr, hgl])
      have hexr : ∃ c ∈ (a.dropWhile fun c => !c.isDigit), Char.isDigit c = false :=
        ⟨a.getLast hane, hlar, hla⟩
      have hany2 : (a ++ (e :: (d' ++ b))).any Char.isDigit = true :=
        List.any_eq_true.2 ⟨e, by simp, hed⟩
      have ha2ne : (a.dropWhile fun c => !c.isDigit).dropWhile Char.isDigit ≠ [] := by
        intro h0
        have hh := List.dropWhile_eq_nil_iff.1 h0 _ hlar
        rw [hla] at hh; cases hh
      have hgl2 : ((a.dropWhile fun c => !c.isDigit).dropWhile Char.isDigit).getLast? =
          a.getLast? := by
        rw [getLast?_dropWhile _ ha2ne, hglr]
      rw [specKey_pos _ hany2,
        takeWhile_append_of_exists a _ hexa, dropWhile_append_of_exists a _ hexa,
        takeWhile_append_of_exists _ _ hexr, dropWhile_append_of_exists _ _ hexr,
        specKey_pos a ha]
      rw [show ((a.dropWhile fun c => !c.isDigit).dropWhile Char.isDigit) ++ (e :: (d' ++ b)) =
          ((a.dropWhile fun c => !c.isDigit).dropWhile Char.isDigit) ++ (e :: d') ++ b from by
        rw [List.append_assoc, List.cons_append]]
      rw [specKey_append ((a.dropWhile fun c => !c.isDigit).dropWhile Char.isDigit) (e :: d') b
        (fun y hy => by rw [hgl2, hgl] at hy; cases Option.some_inj.1 hy; exact hla)
        (by simp) hd hhead]
      simp
    · -- `a` is digit-free: its whole content is the literal before the run.
      have hall : ∀ c ∈ a, c.isDigit = false := by
        intro c hc
        by_contra hcc
        exact ha (List.any_eq_true.2 ⟨c, hc, by simpa using hcc⟩)
      have hallnd : ∀ c ∈ a, (fun c => !c.isDigit) c = true := by
        intro c hc; simp [hall c hc]
      have hany2 : (a ++ (e :: (d' ++ b))).any Char.isDigit = true :=
        List.any_eq_true.2 ⟨e, by simp, hed⟩
      rw [specKey_pos _ hany2,
        List.takeWhile_append_of_pos hallnd, List.dropWhile_append_of_pos hallnd,
        List.takeWhile_cons_of_neg (by simp [hed]), List.dropWhile_cons_of_neg (by simp [hed]),
        hrunm, hdropm, specKey_neg a ha]
      simp
termination_by a => a.length
decreasing_by
  exact specKey_measure a ha

/-- A common key head followed by a strictly smaller token decides `keyLt`. -/
theorem keyLt_append_lt : ∀ (T : List NToken) (x y : NToken) (U V : List NToken),
    ntokLt x y = true → keyLt (T ++ x :: U) (T ++ y :: V) = true
  | [], x, y, U, V, h => by simp [keyLt, h]
  | t :: T', x, y, U, V, h => by
    have ih := keyLt_append_lt T' x y U V h
    simp [keyLt, ih]

/-- On a slash-free path, `basename` is the identity. -/
theorem basenameChars_eq_self (cs : List Char) (h : ∀ c ∈ cs, (c != '/') = true) :
    basenameChars cs = cs := by
  have h2 : cs.reverse.takeWhile (fun c => c != '/') = cs.reverse :=
    List.takeWhile_eq_self_iff.2 fun x hx => h x (List.mem_reverse.1 hx)
  rw [basenameChars, h2, List.reverse_reverse]

/-- Decimal digits are not the path separator. -/
theorem digit_ne_slash {c : Char} (h : c.isDigit = true) : (c != '/') = true := by
  simp only [bne_iff_ne]
  rintro rfl
  exact absurd h (by decide)

/-- C1: for filenames that differ only in one embedded maximal run of
decimal digits, `natural_sort_key` orders them by the numeric value of the
run, not lexicographically: the key of the file whose run has the smaller
value is strictly below the other in the comparison Python's sort uses. -/
theorem c1_embedded_number_ordering (f1 f2 : String) (a d1 d2 b : List Char)
    (hf1 : f1.data = a ++ d1 ++ b) (hf2 : f2.data = a ++ d2 ++ b)
    (hsa : a.all (fun c => c != '/') = true) (hsb : b.all (fun c => c != '/') = true)
    (hlast : a.getLast?.all (fun c => !c.isDigit) = true)
    (hhead : b.head?.all (fun c => !c.isDigit) = true)
    (hd1ne : d1 ≠ []) (hd1 : d1.all Char.isDigit = true)
    (hd2ne : d2 ≠ []) (hd2 : d2.all Char.isDigit = true)
    (hval : digitsToNat d1 < digitsToNat d2) :
    keyLt (natural_sort_key f1) (natural_sort_key f2) = true := by
  have hlast' : ∀ x, a.getLast? = some x → x.isDigit = false := by
    intro x hx; rw [hx] at hlast; simpa using hlast
  have hhead' : ∀ x, b.head? = some x → x.isDigit = false := by
    intro x hx; rw [hx] at hhead; simpa using hhead
  have hnos : ∀ (d : List Char), d.all Char.isDigit = true →
      ∀ c ∈ a ++ d ++ b, (c != '/') = true := by
    intro d hdall c hc
    rcases List.mem_append.1 hc with hm | hm
    · rcases List.mem_append.1 hm with hm2 | hm2
      · exact List.all_eq_true.1 hsa c hm2
      · exact digit_ne_slash (List.all_eq_true.1 hdall c hm2)
    · exact List.all_eq_true.1 hsb c hm
  have hb1 : basenameChars (a ++ d1 ++ b) = a ++ d1 ++ b :=
    basenameChars_eq_self _ (hnos d1 hd1)
  have hb2 : basenameChars (a ++ d2 ++ b) = a ++ d2 ++ b :=
    basenameChars_eq_self _ (hnos d2 hd2)
  rw [natKey_eq_spec f1, natKey_eq_spec f2, hf1, hf2, hb1, hb2,
    specKey_append a d1 b hlast' hd1ne (List.all_eq_true.1 hd1) hhead',
    specKey_append a d2 b hlast' hd2ne (List.all_eq_true.1 hd2) hhead']
  exact keyLt_append_lt (specKey a) _ _ _ _ (by simp [ntokLt, hval])

theorem c1_embedded_number_ordering_witness :
    keyLt (natural_sort_key "page2.pdf") (natural_sort_key "page10.pdf") = true ∧
    keyLt (natural_sort_key "page9.pdf") (natural_sort_key "page10.pdf") = true :=
  ⟨c1_embedded_number_ordering "page2.pdf" "page10.pdf" "page".data ['2'] ['1', '0'] ".pdf".data
      (by decide) (by decide) (by decide) (by decide) (by decide) (by decide)
      (by decide) (by decide) (by decide) (by decide) (by decide),
    c1_embedded_number_ordering "page9.pdf" "page10.pdf" "page".data ['9'] ['1', '0'] ".pdf".data
      (by decide) (by decide) (by decide) (by decide) (by decide) (by decide)
      (by decide) (by decide) (by decide) (by decide) (by decide)⟩

/-- Alternation of the spec-side key: odd length, literal tokens at even
positions, integer tokens at odd positions. -/
theorem specKey_parity : ∀ cs : List Char,
    (specKey cs).length % 2 = 1 ∧
      ∀ i t, (specKey cs)[i]? = some t → t.isStr = (i % 2 == 0)
  | cs => by
    by_cases h : cs.any Char.isDigit = true
    · rw [specKey_pos cs h]
      obtain ⟨ih1, ih2⟩ :=
        specKey_parity ((cs.dropWhile fun c => !c.isDigit).dropWhile Char.isDigit)
      constructor
      · simp only [List.length_cons]
        omega
      · intro i t ht
        match i with
        | 0 =>
          rw [List.getElem?_cons_zero] at ht
          cases Option.some_inj.1 ht
          rfl
        | 1 =>
          rw [List.getElem?_cons_succ, List.getElem?_cons_zero] at ht
          cases Option.some_inj.1 ht
          rfl
        | (j + 2) =>
          rw [List.getElem?_cons_succ, List.getElem?_cons_succ] at ht
          rw [show (j + 2) % 2 = j % 2 from Nat.add_mod_right j 2]
          exact ih2 j t ht
    · rw [specKey_neg cs h]
      refine ⟨rfl, ?_⟩
      intro i t ht
      match i with
      | 0 =>
        rw [List.getElem?_cons_zero] at ht
        cases Option.some_inj.1 ht
        rfl
      | (j + 1) =>
        rw [List.getElem?_cons_succ, List.getElem?_nil] at ht
        cases ht
termination_by cs => cs.length
decreasing_by
  exact specKey_measure cs h

/-- Lexicographic character comparison is total. -/
theorem strLt_total : ∀ s1 s2 : List Char,
    strLt s1 s2 = true ∨ strLt s2 s1 = true ∨ s1 = s2
  | [], [] => Or.inr (Or.inr rfl)
  | [], _ :: _ => Or.inl (by simp [strLt])
  | _ :: _, [] => Or.inr (Or.inl (by simp [strLt]))
  | c :: cs, d :: ds => by
    rcases lt_trichotomy c d with hcd | hcd | hcd
    · exact Or.inl (by simp [strLt, hcd])
    · subst hcd
      rcases strLt_total cs ds with h | h | h
      · exact Or.inl (by simp [strLt, h])
      · exact Or.inr (Or.inl (by simp [strLt, h]))
      · exact Or.inr (Or.inr (by rw [h]))
    · exact Or.inr (Or.inl (by simp [strLt, hcd]))

/-- The Python list comparison is total on any two keys whose tokens at
common positions have matching types. -/
theorem keyLt_total : ∀ k1 k2 : List NToken,
    (∀ (i : Nat) (t1 t2 : NToken), k1[i]? = some t1 → k2[i]? = some t2 → t1.isStr = t2.isStr) →
    keyLt k1 k2 = true ∨ keyLt k2 k1 = true ∨ k1 = k2
  | [], [], _ => Or.inr (Or.inr rfl)
  | [], _ :: _, _ => Or.inl (by simp [keyLt])
  | _ :: _, [], _ => Or.inr (Or.inl (by simp [keyLt]))
  | x :: xs, y :: ys, hsame => by
    have h0 := hsame 0 x y (by simp) (by simp)
    have hrec : ∀ (i : Nat) (t1 t2 : NToken), xs[i]? = some t1 → ys[i]? = some t2 → t1.isStr = t2.isStr := by
      intro i t1 t2 h1 h2
      exact hsame (i + 1) t1 t2 (by simpa using h1) (by simpa using h2)
    cases x with
    | num n =>
      cases y with
      | num m =>
        rcases Nat.lt_trichotomy n m with hnm | hnm | hnm
        · exact Or.inl (by simp [keyLt, ntokLt, hnm])
        · subst hnm
          rcases keyLt_total xs ys hrec with h | h | h
          · exact Or.inl (by simp [keyLt, ntokLt, h])
          · exact Or.inr (Or.inl (by simp [keyLt, ntokLt, h]))
          · exact Or.inr (Or.inr (by rw [h]))
        · exact Or.inr (Or.inl (by simp [keyLt, ntokLt, hnm]))
      | str s2 => simp [NToken.isStr] at h0
    | str s1 =>
      cases y with
      | num m => simp [NToken.isStr] at h0
      | str s2 =>
        rcases strLt_total s1 s2 with h | h | h
        · exact Or.inl (by simp [keyLt, ntokLt, h])
        · exact Or.inr (Or.inl (by simp [keyLt, ntokLt, h]))
        · subst h
          rcases keyLt_total xs ys hrec with h2 | h2 | h2
          · exact Or.inl (by simp [keyLt, ntokLt, h2])
          · exact Or.inr (Or.inl (by simp [keyLt, ntokLt, h2]))
          · exact Or.inr (Or.inr (by rw [h2]))

/-- C10: every key produced by `natural_sort_key` strictly alternates
between literal and integer tokens — odd length, literal tokens exactly at
even positions (so the first and last tokens are literals) — hence two keys
always carry same-typed tokens at common positions and the comparison used
by the sort is total: Python's mixed-type `TypeError` can never arise. -/
theorem c10_key_alternation :
    (∀ s : String, (natural_sort_key s).length % 2 = 1 ∧
        ∀ i t, (natural_sort_key s)[i]? = some t → t.isStr = (i % 2 == 0)) ∧
    (∀ s1 s2 : String, ∀ (i : Nat) (t1 t2 : NToken), (natural_sort_key s1)[i]? = some t1 →
        (natural_sort_key s2)[i]? = some t2 → t1.isStr = t2.isStr) ∧
    (∀ s1 s2 : String,
        keyLt (natural_sort_key s1) (natural_sort_key s2) = true ∨
        keyLt (natural_sort_key s2) (natural_sort_key s1) = true ∨
        natural_sort_key s1 = natural_sort_key s2) := by
  have hp : ∀ s : String, (natural_sort_key s).length % 2 = 1 ∧
      ∀ i t, (natural_sort_key s)[i]? = some t → t.isStr = (i % 2 == 0) := by
    intro s
    rw [natKey_eq_spec s]
    exact specKey_parity _
  refine ⟨hp, ?_, ?_⟩
  · intro s1 s2 i t1 t2 h1 h2
    rw [(hp s1).2 i t1 h1, (hp s2).2 i t2 h2]
  · intro s1 s2
    exact keyLt_total _ _ fun i t1 t2 h1 h2 => by
      rw [(hp s1).2 i t1 h1, (hp s2).2 i t2 h2]

theorem c10_key_alternation_witness :
    (natural_sort_key "Page 1.pdf").length % 2 = 1 ∧
    (NToken.num 1).isStr = (1 % 2 == 0) ∧
    (keyLt (natural_sort_key "a.pdf") (natural_sort_key "b.pdf") = true ∨
      keyLt (natural_sort_key "b.pdf") (natural_sort_key "a.pdf") = true ∨
      natural_sort_key "a.pdf" = natural_sort_key "b.pdf") :=
  ⟨(c10_key_alternation.1 "Page 1.pdf").1,
    (c10_key_alternation.1 "Page 1.pdf").2 1 (NToken.num 1) (by decide),
    c10_key_alternation.2.2 "a.pdf" "b.pdf"⟩

/-- C2: `natural_sort_key` returns exactly the token sequence the spec
describes — the base name split at every maximal run of decimal digits,
each run parsed as a non-negative integer token and every other (possibly
empty) substring lowercased as a literal token, in original order — which
is the spec-side `specKey` of the base name. -/
theorem c2_tokenization_matches_spec (s : String) :
    natural_sort_key s = specKey (basenameChars s.data) :=
  natKey_eq_spec s

/-- The merge loop only appends to the log it is given. -/
theorem mergeLoop_log_mono : ∀ (files : List Entry) (pages : List Nat) (log : List String),
    ∃ tail, (mergeLoop files pages log).2.1 = log ++ tail
  | [], _, _ => ⟨[], by simp [mergeLoop]⟩
  | f :: rest, pages, log => by
    cases ho : f.openResult with
    | error e =>
      refine ⟨["Adding " ++ f.name ++ "..."], ?_⟩
      simp [mergeLoop, ho]
    | ok u =>
      cases hp : f.parseResult with
      | ok ps =>
        obtain ⟨tail, ht⟩ := mergeLoop_log_mono rest (pages ++ ps)
          (log ++ ["Adding " ++ f.name ++ "..."])
        refine ⟨["Adding " ++ f.name ++ "..."] ++ tail, ?_⟩
        simp [mergeLoop, ho, hp, ht]
      | error e =>
        obtain ⟨tail, ht⟩ := mergeLoop_log_mono rest pages
          (log ++ ["Adding " ++ f.name ++ "...",
            "  [WARNING] Could not read " ++ f.name ++ ": " ++ e, "  Skipping this file."])
        refine ⟨["Adding " ++ f.name ++ "...",
          "  [WARNING] Could not read " ++ f.name ++ ": " ++ e, "  Skipping this file."] ++ tail, ?_⟩
        simp [mergeLoop, ho, hp, ht]

/-- The loop reaches the write (no abort) exactly when every open succeeds. -/
theorem mergeLoop_abort_none : ∀ (files : List Entry) (pages : List Nat) (log : List String),
    (mergeLoop files pages log).2.2 = none ↔ ∀ f ∈ files, f.openResult = Except.ok ()
  | [], _, _ => by simp [mergeLoop]
  | f :: rest, pages, log => by
    cases ho : f.openResult with
    | error e =>
      constructor
      · intro h
        rw [show (mergeLoop (f :: rest) pages log).2.2 = some e from by
          simp [mergeLoop, ho]] at h
        cases h
      · intro h
        have hf := h f (List.mem_cons_self _ _)
        rw [ho] at hf
        cases hf
    | ok u =>
      cases u
      cases hp : f.parseResult with
      | ok ps =>
        rw [show mergeLoop (f :: rest) pages log =
            mergeLoop rest (pages ++ ps) (log ++ ["Adding " ++ f.name ++ "..."]) from by
          simp [mergeLoop, ho, hp]]
        rw [mergeLoop_abort_none rest _ _]
        simp [List.forall_mem_cons, ho]
      | error e =>
        rw [show mergeLoop (f :: rest) pages log =
            mergeLoop rest pages ((log ++ ["Adding " ++ f.name ++ "..."]) ++
              ["  [WARNING] Could not read " ++ f.name ++ ": " ++ e,
                "  Skipping this file."]) from by
          simp [mergeLoop, ho, hp]]
        rw [mergeLoop_abort_none rest _ _]
        simp [List.forall_mem_cons, ho]

/-- When every open succeeds, the loop appends exactly the pages of the
parse-readable files, in order. -/
theorem mergeLoop_pages : ∀ (files : List Entry) (pages : List Nat) (log : List String),
    (∀ f ∈ files, f.openResult = Except.ok ()) →
    (mergeLoop files pages log).1 =
      pages ++ (files.filterMap fun f => f.parseResult.toOption).flatten
  | [], _, _, _ => by simp [mergeLoop]
  | f :: rest, pages, log, hok => by
    have ho : f.openResult = Except.ok () := hok f (List.mem_cons_self _ _)
    have hok' : ∀ g ∈ rest, g.openResult = Except.ok () :=
      fun g hg => hok g (List.mem_cons_of_mem _ hg)
    cases hp : f.parseResult with
    | ok ps =>
      rw [show mergeLoop (f :: rest) pages log =
          mergeLoop rest (pages ++ ps) (log ++ ["Adding " ++ f.name ++ "..."]) from by
        simp [mergeLoop, ho, hp]]
      rw [mergeLoop_pages rest _ _ hok']
      simp [List.filterMap_cons, hp, Except.toOption, List.append_assoc]
    | error e =>
      rw [show mergeLoop (f :: rest) pages log =
          mergeLoop rest pages ((log ++ ["Adding " ++ f.name ++ "..."]) ++
            ["  [WARNING] Could not read " ++ f.name ++ ": " ++ e,
              "  Skipping this file."]) from by
        simp [mergeLoop, ho, hp]]
      rw [mergeLoop_pages rest _ _ hok']
      simp [List.filterMap_cons, hp, Except.toOption]

/-- When every open succeeds, each parse failure leaves its warning line,
naming the file and the error, in the loop's log. -/
theorem mergeLoop_warns : ∀ (files : List Entry) (pages : List Nat) (log : List String),
    (∀ f ∈ files, f.openResult = Except.ok ()) →
    ∀ f ∈ files, ∀ m, f.parseResult = Except.error m →
      ("  [WARNING] Could not read " ++ f.name ++ ": " ++ m) ∈ (mergeLoop files pages log).2.1
  | [], _, _, _ => by intro f hf; cases hf
  | g :: rest, pages, log, hok => by
    intro f hf m hm
    have hgo : g.openResult = Except.ok () := hok g (List.mem_cons_self _ _)
    have hok' : ∀ x ∈ rest, x.openResult = Except.ok () :=
      fun x hx => hok x (List.mem_cons_of_mem _ hx)
    rcases List.mem_cons.1 hf with rfl | hf'
    · rw [show mergeLoop (f :: rest) pages log =
          mergeLoop rest pages ((log ++ ["Adding " ++ f.name ++ "..."]) ++
            ["  [WARNING] Could not read " ++ f.name ++ ": " ++ m,
              "  Skipping this file."]) from by
        simp [mergeLoop, hgo, hm]]
      obtain ⟨tail, ht⟩ := mergeLoop_log_mono rest pages
        ((log ++ ["Adding " ++ f.name ++ "..."]) ++
          ["  [WARNING] Could not read " ++ f.name ++ ": " ++ m, "  Skipping this file."])
      rw [ht]
      simp
    · cases hp : g.parseResult with
      | ok ps =>
        rw [show mergeLoop (g :: rest) pages log =
            mergeLoop rest (pages ++ ps) (log ++ ["Adding " ++ g.name ++ "..."]) from by
          simp [mergeLoop, hgo, hp]]
        exact mergeLoop_warns rest _ _ hok' f hf' m hm
      | error e =>
        rw [show mergeLoop (g :: rest) pages log =
            mergeLoop rest pages ((log ++ ["Adding " ++ g.name ++ "..."]) ++
              ["  [WARNING] Could not read " ++ g.name ++ ": " ++ e,
                "  Skipping this file."]) from by
          simp [mergeLoop, hgo, hp]]
        exact mergeLoop_warns rest _ _ hok' f hf' m hm

/-- Membership is preserved by sorted insertion. -/
theorem mem_insertSorted (le : Entry → Entry → Bool) (e x : Entry) :
    ∀ l : List Entry, x ∈ insertSorted le e l ↔ x = e ∨ x ∈ l
  | [] => by simp [insertSorted]
  | f :: fs => by
    by_cases h : le e f = true
    · simp [insertSorted, h]
    · simp only [insertSorted, if_neg h, List.mem_cons, mem_insertSorted le e x fs]
      tauto

/-- Sorting permutes: membership is unchanged. -/
theorem mem_sortEntries (le : Entry → Entry → Bool) (x : Entry) :
    ∀ l : List Entry, x ∈ sortEntries le l ↔ x ∈ l
  | [] => by simp [sortEntries]
  | e :: es => by
    simp [sortEntries, mem_insertSorted, mem_sortEntries le x es]

/-- C3 counterexample: three regular files where the OS-level `open` of
`a2.pdf` fails (say, no read permission) while the others parse fine.  The
claim predicts a warning naming `a2.pdf`, its pages skipped, and an output
with the readable pages; the script instead lets the `open` exception (line
61, outside the inner `try`) escape to the outer handler: the loop aborts,
no warning names the file, and nothing is written. -/
theorem c3_counterexample :
    (merge_pdfs_in_folder "d" true
        [⟨"a1.pdf", true, Except.ok (), Except.ok [1]⟩,
          ⟨"a2.pdf", true, Except.error "Permission denied", Except.ok [2]⟩,
          ⟨"a3.pdf", true, Except.ok (), Except.ok [3]⟩]
        (Except.ok ()) "ALL.pdf").outputPages = none ∧
    (merge_pdfs_in_folder "d" true
        [⟨"a1.pdf", true, Except.ok (), Except.ok [1]⟩,
          ⟨"a2.pdf", true, Except.error "Permission denied", Except.ok [2]⟩,
          ⟨"a3.pdf", true, Except.ok (), Except.ok [3]⟩]
        (Except.ok ()) "ALL.pdf").wrote = false ∧
    ¬(("  [WARNING] Could not read a2.pdf: Permission denied") ∈
        (merge_pdfs_in_folder "d" true
          [⟨"a1.pdf", true, Except.ok (), Except.ok [1]⟩,
            ⟨"a2.pdf", true, Except.error "Permission denied", Except.ok [2]⟩,
            ⟨"a3.pdf", true, Except.ok (), Except.ok [3]⟩]
          (Except.ok ()) "ALL.pdf").log) :=
  ⟨rfl, rfl, by decide⟩

/-- C3 amended: a parse failure is warned — naming the file — and skipped
and the loop continues, and when every OS-level open succeeds the written
output is exactly the concatenation, in sorted order, of the pages of the
parse-readable inputs; a failed OS-level open, however, aborts the
remaining loop and the final write, with the run still exiting 0 and
writing nothing. -/
theorem c3_amended_tolerant_merge (folderPath : String) (isDir : Bool) (entries : List Entry)
    (writeResult : Except String Unit) (output_name : String) (run : MergeRun)
    (hrun : run = merge_pdfs_in_folder folderPath isDir entries writeResult output_name)
    (hne : run.inputs ≠ []) :
    ((∀ f ∈ run.inputs, f.openResult = Except.ok ()) →
      (writeResult = Except.ok () →
        run.outputPages = some ((run.inputs.filterMap fun f => f.parseResult.toOption).flatten)) ∧
      (∀ f ∈ run.inputs, ∀ m, f.parseResult = Except.error m →
        ("  [WARNING] Could not read " ++ f.name ++ ": " ++ m) ∈ run.log)) ∧
    ((∃ f ∈ run.inputs, f.openResult ≠ Except.ok ()) →
      run.outputPages = none ∧ run.wrote = false ∧ run.exitCode = 0) := by
  subst hrun
  cases isDir with
  | false => simp [merge_pdfs_in_folder] at hne
  | true =>
    simp only [merge_pdfs_in_folder] at hne ⊢
    rw [if_neg (show ¬((!true) = true) by simp)] at hne ⊢
    by_cases hF : ((entries.filter mergerSelects).filter
        fun e => e.name != output_name).isEmpty = true
    · rw [if_pos hF] at hne
      exact absurd rfl hne
    · rw [if_neg hF] at hne ⊢
      rcases hml : mergeLoop (sortEntries
          (fun a b => keyLe (natural_sort_key a.name) (natural_sort_key b.name))
          ((entries.filter mergerSelects).filter fun e => e.name != output_name)) [] []
        with ⟨pages, logv, abortv⟩
      rw [hml] at hne
      cases abortv with
      | some e =>
        constructor
        · intro hok
          exfalso
          have h0 := (mergeLoop_abort_none (sortEntries
              (fun a b => keyLe (natural_sort_key a.name) (natural_sort_key b.name))
              ((entries.filter mergerSelects).filter fun e => e.name != output_name))
              [] []).2 (by
            intro f hf
            exact hok f (by simpa using hf))
          rw [hml] at h0
          cases h0
        · intro _
          exact ⟨rfl, rfl, rfl⟩
      | none =>
        have habortnone : ∀ f ∈ sortEntries
            (fun a b => keyLe (natural_sort_key a.name) (natural_sort_key b.name))
            ((entries.filter mergerSelects).filter fun e => e.name != output_name),
            f.openResult = Except.ok () := by
          apply (mergeLoop_abort_none (sortEntries
            (fun a b => keyLe (natural_sort_key a.name) (natural_sort_key b.name))
            ((entries.filter mergerSelects).filter fun e => e.name != output_name)) [] []).1
          rw [hml]
        have hpg := mergeLoop_pages (sortEntries
            (fun a b => keyLe (natural_sort_key a.name) (natural_sort_key b.name))
            ((entries.filter mergerSelects).filter fun e => e.name != output_name))
            [] [] habortnone
        rw [hml] at hpg
        simp only [List.nil_append] at hpg
        have hwarnall := mergeLoop_warns (sortEntries
            (fun a b => keyLe (natural_sort_key a.name) (natural_sort_key b.name))
            ((entries.filter mergerSelects).filter fun e => e.name != output_name))
            [] [] habortnone
        cases writeResult with
        | ok u =>
          cases u
          constructor
          · intro _
            constructor
            · intro _
              show some pages = _
              rw [hpg]
            · intro f hf m hm
              have hw := hwarnall f (by simpa using hf) m hm
              rw [hml] at hw
              show _ ∈ logv ++ _
              exact List.mem_append.2 (Or.inl hw)
          · intro hex
            rcases hex with ⟨f, hf, hbad⟩
            exact absurd (habortnone f (by simpa using hf)) hbad
        | error e =>
          constructor
          · intro _
            constructor
            · intro hw
              cases hw
            · intro f hf m hm
              have hw := hwarnall f (by simpa using hf) m hm
              rw [hml] at hw
              show _ ∈ logv ++ _
              exact List.mem_append.2 (Or.inl hw)
          · intro hex
            rcases hex with ⟨f, hf, hbad⟩
            exact absurd (habortnone f (by simpa using hf)) hbad

/-- C4: the designated output file is excluded from the input set before
sorting and merging — removing any entry carrying the output name from the
directory does not change the run at all, and no iterated input bears the
output name. -/
theorem c4_output_excluded (folderPath : String) (isDir : Bool) (entries : List Entry)
    (writeResult : Except String Unit) (output_name : String) :
    merge_pdfs_in_folder folderPath isDir entries writeResult output_name =
      merge_pdfs_in_folder folderPath isDir
        (entries.filter fun e => e.name != output_name) writeResult output_name ∧
    ∀ e ∈ (merge_pdfs_in_folder folderPath isDir entries writeResult output_name).inputs,
      e.name ≠ output_name := by
  have hfilters : (((entries.filter fun e => e.name != output_name).filter
        mergerSelects).filter fun e => e.name != output_name) =
      (entries.filter mergerSelects).filter fun e => e.name != output_name := by
    rw [List.filter_filter, List.filter_filter, List.filter_filter]
    congr 1
    funext e
    cases h1 : e.name != output_name <;> cases h2 : mergerSelects e <;> simp [h1, h2]
  constructor
  · cases isDir with
    | false => rfl
    | true =>
      simp only [merge_pdfs_in_folder]
      rw [hfilters]
  · intro e he
    cases isDir with
    | false => simp [merge_pdfs_in_folder] at he
    | true =>
      simp only [merge_pdfs_in_folder] at he
      rw [if_neg (show ¬((!true) = true) by simp)] at he
      by_cases hF : ((entries.filter mergerSelects).filter
          fun e => e.name != output_name).isEmpty = true
      · rw [if_pos hF] at he
        simp at he
      · rw [if_neg hF] at he
        rcases hml : mergeLoop (sortEntries
            (fun a b => keyLe (natural_sort_key a.name) (natural_sort_key b.name))
            ((entries.filter mergerSelects).filter fun e => e.name != output_name)) [] []
          with ⟨pages, logv, abortv⟩
        rw [hml] at he
        have hmem : e ∈ (entries.filter mergerSelects).filter
            (fun e => e.name != output_name) := by
          rw [← mem_sortEntries (fun a b =>
            keyLe (natural_sort_key a.name) (natural_sort_key b.name)) e]
          cases abortv with
          | some msg => simpa using he
          | none => cases writeResult <;> simpa using he
        have hb := List.of_mem_filter hmem
        simpa [bne_iff_ne] using hb

theorem c3_amended_tolerant_merge_witness :
    ((merge_pdfs_in_folder "d" true
        [⟨"b2.pdf", true, Except.ok (), Except.error "broken"⟩,
          ⟨"b1.pdf", true, Except.ok (), Except.ok [7]⟩]
        (Except.ok ()) "ALL.pdf").outputPages =
      some (((merge_pdfs_in_folder "d" true
        [⟨"b2.pdf", true, Except.ok (), Except.error "broken"⟩,
          ⟨"b1.pdf", true, Except.ok (), Except.ok [7]⟩]
        (Except.ok ()) "ALL.pdf").inputs.filterMap fun f => f.parseResult.toOption).flatten)) ∧
    ("  [WARNING] Could not read b2.pdf: broken") ∈
      (merge_pdfs_in_folder "d" true
        [⟨"b2.pdf", true, Except.ok (), Except.error "broken"⟩,
          ⟨"b1.pdf", true, Except.ok (), Except.ok [7]⟩]
        (Except.ok ()) "ALL.pdf").log := by
  have h := c3_amended_tolerant_merge "d" true
    [⟨"b2.pdf", true, Except.ok (), Except.error "broken"⟩,
      ⟨"b1.pdf", true, Except.ok (), Except.ok [7]⟩]
    (Except.ok ()) "ALL.pdf" _ rfl (by decide)
  refine ⟨(h.1 (by decide)).1 rfl, ?_⟩
  exact (h.1 (by decide)).2 ⟨"b2.pdf", true, Except.ok (), Except.error "broken"⟩
    (by decide) "broken" rfl

theorem c4_output_excluded_witness :
    (merge_pdfs_in_folder "d" true
        [⟨"ALL.pdf", true, Except.ok (), Except.ok [9]⟩,
          ⟨"a.pdf", true, Except.ok (), Except.ok [1]⟩]
        (Except.ok ()) "ALL.pdf" =
      merge_pdfs_in_folder "d" true
        ([⟨"ALL.pdf", true, Except.ok (), Except.ok [9]⟩,
          ⟨"a.pdf", true, Except.ok (), Except.ok [1]⟩].filter fun e => e.name != "ALL.pdf")
        (Except.ok ()) "ALL.pdf") ∧
    ("ALL.pdf" : String) ≠ "a.pdf" ∧
    (⟨"a.pdf", true, Except.ok (), Except.ok [1]⟩ : Entry).name ≠ "ALL.pdf" := by
  have h := c4_output_excluded "d" true
    [⟨"ALL.pdf", true, Except.ok (), Except.ok [9]⟩,
      ⟨"a.pdf", true, Except.ok (), Except.ok [1]⟩]
    (Except.ok ()) "ALL.pdf"
  exact ⟨h.1, by decide, h.2 ⟨"a.pdf", true, Except.ok (), Except.ok [1]⟩ (by decide)⟩

/-- C5: a missing directory exits 1 after printing the error and touches
nothing; with the directory present but no input files left after excluding
the output name, the run prints its message and exits 0 without creating an
output file. -/
theorem c5_invalid_dir_and_empty_input (folderPath : String) (entries : List Entry)
    (writeResult : Except String Unit) (output_name : String) :
    ((merge_pdfs_in_folder folderPath false entries writeResult output_name).exitCode = 1 ∧
      (merge_pdfs_in_folder folderPath false entries writeResult output_name).wrote = false ∧
      (merge_pdfs_in_folder folderPath false entries writeResult output_name).outputPages = none ∧
      ("Error: Directory '" ++ folderPath ++ "' does not exist.") ∈
        (merge_pdfs_in_folder folderPath false entries writeResult output_name).log) ∧
    (((entries.filter mergerSelects).filter fun e => e.name != output_name) = [] →
      (merge_pdfs_in_folder folderPath true entries writeResult output_name).exitCode = 0 ∧
      (merge_pdfs_in_folder folderPath true entries writeResult output_name).wrote = false ∧
      (merge_pdfs_in_folder folderPath true entries writeResult output_name).outputPages = none ∧
      "No PDF files found to merge." ∈
        (merge_pdfs_in_folder folderPath true entries writeResult output_name).log) := by
  constructor
  · refine ⟨rfl, rfl, rfl, ?_⟩
    show _ ∈ [_]
    simp [merge_pdfs_in_folder]
  · intro hF
    have hF' : ((entries.filter mergerSelects).filter
        fun e => e.name != output_name).isEmpty = true := by
      rw [hF]; rfl
    constructor
    · simp only [merge_pdfs_in_folder]
      rw [if_neg (show ¬((!true) = true) by simp), if_pos hF']
    constructor
    · simp only [merge_pdfs_in_folder]
      rw [if_neg (show ¬((!true) = true) by simp), if_pos hF']
    constructor
    · simp only [merge_pdfs_in_folder]
      rw [if_neg (show ¬((!true) = true) by simp), if_pos hF']
    · simp only [merge_pdfs_in_folder]
      rw [if_neg (show ¬((!true) = true) by simp), if_pos hF']
      simp

theorem c5_invalid_dir_and_empty_input_witness :
    (merge_pdfs_in_folder "missing" false [] (Except.ok ()) "ALL.pdf").exitCode = 1 ∧
    (merge_pdfs_in_folder "d" true [] (Except.ok ()) "ALL.pdf").exitCode = 0 ∧
    (merge_pdfs_in_folder "d" true [] (Except.ok ()) "ALL.pdf").wrote = false := by
  have h1 := c5_invalid_dir_and_empty_input "missing" [] (Except.ok ()) "ALL.pdf"
  have h2 := (c5_invalid_dir_and_empty_input "d" [] (Except.ok ()) "ALL.pdf").2 rfl
  exact ⟨h1.1.1, h2.1, h2.2.1⟩

/-- C6: once the path is a directory, the run's exit code is 0 whatever the
per-file and write outcomes; if the loop completes (every open succeeded)
and the single final write fails, the failure is printed but the exit code
is still 0 and nothing is written. -/
theorem c6_exit_zero_despite_failures (folderPath : String) (entries : List Entry)
    (writeResult : Except String Unit) (output_name : String) :
    (merge_pdfs_in_folder folderPath true entries writeResult output_name).exitCode = 0 ∧
    ((∀ f ∈ (merge_pdfs_in_folder folderPath true entries writeResult output_name).inputs,
        f.openResult = Except.ok ()) →
      (merge_pdfs_in_folder folderPath true entries writeResult output_name).inputs ≠ [] →
      ∀ m, writeResult = Except.error m →
        (merge_pdfs_in_folder folderPath true entries writeResult output_name).wrote = false ∧
        ("Failed to write merged PDF: " ++ m) ∈
          (merge_pdfs_in_folder folderPath true entries writeResult output_name).log) := by
  simp only [merge_pdfs_in_folder]
  rw [if_neg (show ¬((!true) = true) by simp)]
  by_cases hF : ((entries.filter mergerSelects).filter
      fun e => e.name != output_name).isEmpty = true
  · rw [if_pos hF]
    exact ⟨rfl, fun _ hne _ _ => absurd rfl hne⟩
  · rw [if_neg hF]
    rcases hml : mergeLoop (sortEntries
        (fun a b => keyLe (natural_sort_key a.name) (natural_sort_key b.name))
        ((entries.filter mergerSelects).filter fun e => e.name != output_name)) [] []
      with ⟨pages, logv, abortv⟩
    cases abortv with
    | some e =>
      refine ⟨rfl, ?_⟩
      intro hok _ m hm
      exfalso
      have h0 := (mergeLoop_abort_none (sortEntries
          (fun a b => keyLe (natural_sort_key a.name) (natural_sort_key b.name))
          ((entries.filter mergerSelects).filter fun e => e.name != output_name))
          [] []).2 (by
        intro f hf
        exact hok f (by simpa using hf))
      rw [hml] at h0
      cases h0
    | none =>
      cases writeResult with
      | ok u =>
        cases u
        exact ⟨rfl, fun _ _ m hm => by cases hm⟩
      | error e =>
        refine ⟨rfl, ?_⟩
        intro hok _ m hm
        cases hm
        refine ⟨rfl, ?_⟩
        show _ ∈ logv ++ _
        simp

theorem c6_exit_zero_despite_failures_witness :
    (merge_pdfs_in_folder "d" true [⟨"a.pdf", true, Except.ok (), Except.ok [1]⟩]
        (Except.error "disk full") "ALL.pdf").exitCode = 0 ∧
    (merge_pdfs_in_folder "d" true [⟨"a.pdf", true, Except.ok (), Except.ok [1]⟩]
        (Except.error "disk full") "ALL.pdf").wrote = false ∧
    ("Failed to write merged PDF: disk full") ∈
      (merge_pdfs_in_folder "d" true [⟨"a.pdf", true, Except.ok (), Except.ok [1]⟩]
        (Except.error "disk full") "ALL.pdf").log := by
  have h := c6_exit_zero_despite_failures "d" [⟨"a.pdf", true, Except.ok (), Except.ok [1]⟩]
    (Except.error "disk full") "ALL.pdf"
  have h2 := h.2 (by decide) (by intro hx; exact absurd (congrArg List.length hx) (by decide))
    "disk full" rfl
  exact ⟨h.1, h2.1, h2.2⟩

/-- The written-files and success-count accumulators of the stamper loop:
each file adds its stamped document under `titled/<name>` exactly when both
its open and its save succeed. -/
theorem stampFold_written : ∀ (files : List SFile) (dir : String) (fs : Int)
    (pos : Int × Int) (col : Int × Int × Int)
    (acc : List (String × List (List Stamp)) × Nat × List String),
    (files.foldl (stampStep dir fs pos col) acc).1 =
      acc.1 ++ files.filterMap (fun f =>
        match f.parseResult, f.saveResult with
        | Except.ok pages, Except.ok _ => some (dir ++ "/titled/" ++ f.name,
            pages.map fun pg => pg ++ [⟨pos, stemStr f.name, fs, col, "helv"⟩])
        | _, _ => none) ∧
    (files.foldl (stampStep dir fs pos col) acc).2.1 =
      acc.2.1 + (files.filterMap (fun f =>
        match f.parseResult, f.saveResult with
        | Except.ok pages, Except.ok _ => some (dir ++ "/titled/" ++ f.name,
            pages.map fun pg => pg ++ [⟨pos, stemStr f.name, fs, col, "helv"⟩])
        | _, _ => none)).length
  | [], dir, fs, pos, col, acc => by simp
  | f :: rest, dir, fs, pos, col, acc => by
    rw [List.foldl_cons]
    obtain ⟨ih1, ih2⟩ := stampFold_written rest dir fs pos col (stampStep dir fs pos col acc f)
    cases hp : f.parseResult with
    | error m =>
      have hstep : (stampStep dir fs pos col acc f).1 = acc.1 ∧
          (stampStep dir fs pos col acc f).2.1 = acc.2.1 := by
        simp [stampStep, add_title_to_pdf, hp]
      refine ⟨?_, ?_⟩
      · rw [ih1, hstep.1, List.filterMap_cons]
        simp [hp]
      · rw [ih2, hstep.2, List.filterMap_cons]
        simp [hp]
    | ok pages =>
      cases hs : f.saveResult with
      | error m =>
        have hstep : (stampStep dir fs pos col acc f).1 = acc.1 ∧
            (stampStep dir fs pos col acc f).2.1 = acc.2.1 := by
          simp [stampStep, add_title_to_pdf, hp, hs]
        refine ⟨?_, ?_⟩
        · rw [ih1, hstep.1, List.filterMap_cons]
          simp [hp, hs]
        · rw [ih2, hstep.2, List.filterMap_cons]
          simp [hp, hs]
      | ok u =>
        cases u
        have hstep : (stampStep dir fs pos col acc f).1 =
            acc.1 ++ [(dir ++ "/titled/" ++ f.name,
              pages.map fun pg => pg ++ [⟨pos, stemStr f.name, fs, col, "helv"⟩])] ∧
            (stampStep dir fs pos col acc f).2.1 = acc.2.1 + 1 := by
          simp [stampStep, add_title_to_pdf, hp, hs]
        refine ⟨?_, ?_⟩
        · rw [ih1, hstep.1, List.filterMap_cons]
          simp [hp, hs]
        · rw [ih2, hstep.2, List.filterMap_cons]
          simp [hp, hs]
          omega

/-- The stamper loop only appends to its log. -/
theorem stampFold_log_mono : ∀ (files : List SFile) (dir : String) (fs : Int)
    (pos : Int × Int) (col : Int × Int × Int)
    (acc : List (String × List (List Stamp)) × Nat × List String),
    ∃ tail, (files.foldl (stampStep dir fs pos col) acc).2.2 = acc.2.2 ++ tail
  | [], dir, fs, pos, col, acc => ⟨[], by simp⟩
  | f :: rest, dir, fs, pos, col, acc => by
    rw [List.foldl_cons]
    obtain ⟨tail, ht⟩ := stampFold_log_mono rest dir fs pos col (stampStep dir fs pos col acc f)
    cases hp : f.parseResult with
    | error m =>
      refine ⟨(["📄 Processing: " ++ f.name, "   Title: '" ++ stemStr f.name ++ "'"] ++
        ["  ✗ Error processing " ++ (dir ++ "/" ++ f.name) ++ ": " ++ m]) ++ tail, ?_⟩
      rw [ht]
      simp [stampStep, add_title_to_pdf, hp]
    | ok pages =>
      cases hs : f.saveResult with
      | error m =>
        refine ⟨(["📄 Processing: " ++ f.name, "   Title: '" ++ stemStr f.name ++ "'"] ++
          ["  ✗ Error processing " ++ (dir ++ "/" ++ f.name) ++ ": " ++ m]) ++ tail, ?_⟩
        rw [ht]
        simp [stampStep, add_title_to_pdf, hp, hs]
      | ok u =>
        cases u
        refine ⟨(["📄 Processing: " ++ f.name, "   Title: '" ++ stemStr f.name ++ "'"] ++
          ["   ✅ Saved to: titled/" ++ f.name]) ++ tail, ?_⟩
        rw [ht]
        simp [stampStep, add_title_to_pdf, hp, hs]

/-- Every per-file failure — parse or save — leaves an error line naming
the offending file in the loop's log, and the loop continues. -/
theorem stampFold_reports : ∀ (files : List SFile) (dir : String) (fs : Int)
    (pos : Int × Int) (col : Int × Int × Int)
    (acc : List (String × List (List Stamp)) × Nat × List String),
    ∀ f ∈ files, ∀ m,
      (f.parseResult = Except.error m ∨
        (∃ pgs, f.parseResult = Except.ok pgs ∧ f.saveResult = Except.error m)) →
      ("  ✗ Error processing " ++ (dir ++ "/" ++ f.name) ++ ": " ++ m) ∈
        (files.foldl (stampStep dir fs pos col) acc).2.2
  | [], _, _, _, _, _ => by intro f hf; cases hf
  | g :: rest, dir, fs, pos, col, acc => by
    intro f hf m hm
    rw [List.foldl_cons]
    rcases List.mem_cons.1 hf with rfl | hf'
    · obtain ⟨tail, ht⟩ := stampFold_log_mono rest dir fs pos col
        (stampStep dir fs pos col acc f)
      rw [ht]
      rcases hm with hm | ⟨pgs, hpok, hm⟩
      · have hstep : (stampStep dir fs pos col acc f).2.2 = acc.2.2 ++
            ["📄 Processing: " ++ f.name, "   Title: '" ++ stemStr f.name ++ "'",
              "  ✗ Error processing " ++ (dir ++ "/" ++ f.name) ++ ": " ++ m] := by
          simp [stampStep, add_title_to_pdf, hm]
        rw [hstep]
        simp
      · have hstep : (stampStep dir fs pos col acc f).2.2 = acc.2.2 ++
            ["📄 Processing: " ++ f.name, "   Title: '" ++ stemStr f.name ++ "'",
              "  ✗ Error processing " ++ (dir ++ "/" ++ f.name) ++ ": " ++ m] := by
          simp [stampStep, add_title_to_pdf, hpok, hm]
        rw [hstep]
        simp
    · exact stampFold_reports rest dir fs pos col
        (stampStep dir fs pos col acc g) f hf' m hm

/-- C7: when the directory checks and the `titled` mkdir succeed and inputs
exist, the stamper derives each title as the filename stem, inserts exactly
that text on every page at the configured position, size and color in the
fixed font `"helv"`, writes the result under the original filename into the
fixed `titled` subdirectory, counts it on success, and reports any per-file
failure with the offending file's path while continuing with the rest. -/
theorem c7_stamper_behaviour (dir : String) (sfiles : List SFile) (fs : Int)
    (pos : Int × Int) (col : Int × Int × Int) (run : StampRun)
    (hrun : run = process_pdfs_in_directory dir true true (Except.ok ()) sfiles fs pos col)
    (hproc : run.proceeded = true) :
    run.written = run.processed.filterMap (fun f =>
      match f.parseResult, f.saveResult with
      | Except.ok pages, Except.ok _ => some (dir ++ "/titled/" ++ f.name,
          pages.map fun pg => pg ++ [⟨pos, stemStr f.name, fs, col, "helv"⟩])
      | _, _ => none) ∧
    run.successCount = (run.processed.filterMap (fun f =>
      match f.parseResult, f.saveResult with
      | Except.ok pages, Except.ok _ => some (dir ++ "/titled/" ++ f.name,
          pages.map fun pg => pg ++ [⟨pos, stemStr f.name, fs, col, "helv"⟩])
      | _, _ => none)).length ∧
    ∀ f ∈ run.processed, ∀ m,
      (f.parseResult = Except.error m ∨
        (∃ pgs, f.parseResult = Except.ok pgs ∧ f.saveResult = Except.error m)) →
      ("  ✗ Error processing " ++ (dir ++ "/" ++ f.name) ++ ": " ++ m) ∈ run.log := by
  subst hrun
  simp only [process_pdfs_in_directory] at hproc ⊢
  rw [if_neg (show ¬((!true) = true) by simp)] at hproc ⊢
  rw [if_neg (show ¬((!true) = true) by simp)] at hproc ⊢
  by_cases hF : ((sfiles.filter fun f => endsWithS f.name ".pdf") ++
      (sfiles.filter fun f => endsWithS f.name ".PDF")).isEmpty = true
  · rw [if_pos hF] at hproc
    cases hproc
  · rw [if_neg hF] at hproc ⊢
    rcases hfold : ((sfiles.filter fun f => endsWithS f.name ".pdf") ++
        (sfiles.filter fun f => endsWithS f.name ".PDF")).foldl
        (stampStep dir fs pos col) ([], 0, []) with ⟨w, sc, ll⟩
    obtain ⟨hw, hsc⟩ := stampFold_written ((sfiles.filter fun f => endsWithS f.name ".pdf") ++
      (sfiles.filter fun f => endsWithS f.name ".PDF")) dir fs pos col ([], 0, [])
    rw [hfold] at hw hsc
    simp only [List.nil_append, Nat.zero_add] at hw hsc
    refine ⟨hw, hsc, ?_⟩
    intro f hf m hm
    have hrep := stampFold_reports ((sfiles.filter fun f => endsWithS f.name ".pdf") ++
      (sfiles.filter fun f => endsWithS f.name ".PDF")) dir fs pos col ([], 0, []) f hf m hm
    rw [hfold] at hrep
    show _ ∈ [_] ++ ll ++ [_]
    simp only [List.mem_append]
    exact Or.inl (Or.inr hrep)

theorem c7_stamper_behaviour_witness :
    (process_pdfs_in_directory "d" true true (Except.ok ())
        [⟨"Chapter 3.pdf", Except.ok [[], []], Except.ok ()⟩,
          ⟨"bad.pdf", Except.error "corrupt", Except.ok ()⟩]
        24 (50, 80) (0, 0, 0)).written =
      ((process_pdfs_in_directory "d" true true (Except.ok ())
        [⟨"Chapter 3.pdf", Except.ok [[], []], Except.ok ()⟩,
          ⟨"bad.pdf", Except.error "corrupt", Except.ok ()⟩]
        24 (50, 80) (0, 0, 0)).processed.filterMap (fun f =>
          match f.parseResult, f.saveResult with
          | Except.ok pages, Except.ok _ => some ("d" ++ "/titled/" ++ f.name,
              pages.map fun pg => pg ++ [⟨(50, 80), stemStr f.name, 24, (0, 0, 0), "helv"⟩])
          | _, _ => none)) ∧
    ("  ✗ Error processing " ++ ("d" ++ "/" ++ "bad.pdf") ++ ": " ++ "corrupt") ∈
      (process_pdfs_in_directory "d" true true (Except.ok ())
        [⟨"Chapter 3.pdf", Except.ok [[], []], Except.ok ()⟩,
          ⟨"bad.pdf", Except.error "corrupt", Except.ok ()⟩]
        24 (50, 80) (0, 0, 0)).log := by
  have h := c7_stamper_behaviour "d"
    [⟨"Chapter 3.pdf", Except.ok [[], []], Except.ok ()⟩,
      ⟨"bad.pdf", Except.error "corrupt", Except.ok ()⟩]
    24 (50, 80) (0, 0, 0) _ rfl (by decide)
  exact ⟨h.1, h.2.2 ⟨"bad.pdf", Except.error "corrupt", Except.ok ()⟩ (by decide) "corrupt"
    (Or.inl rfl)⟩

/-- C9 counterexample: `doc.Pdf` has a case variant of the `.pdf` extension
— its lowercased name ends in ".pdf" — yet the merger's case-sensitive glob
leaves it out of the input set (the run is a no-op) and neither of the
stamper's two case-sensitive globs matches it. -/
theorem c9_counterexample :
    endsWithS (lowerStr "doc.Pdf") ".pdf" = true ∧
    (merge_pdfs_in_folder "d" true [⟨"doc.Pdf", true, Except.ok (), Except.ok [1]⟩]
      (Except.ok ()) "ALL.pdf").inputs = [] ∧
    (merge_pdfs_in_folder "d" true [⟨"doc.Pdf", true, Except.ok (), Except.ok [1]⟩]
      (Except.ok ()) "ALL.pdf").wrote = false ∧
    (process_pdfs_in_directory "d" true true (Except.ok ())
      [⟨"doc.Pdf", Except.ok [[]], Except.ok ()⟩] 24 (50, 80) (0, 0, 0)).processed = [] ∧
    (process_pdfs_in_directory "d" true true (Except.ok ())
      [⟨"doc.Pdf", Except.ok [[]], Except.ok ()⟩] 24 (50, 80) (0, 0, 0)).written = [] := by
  decide

/-- C9 amended: both tools match case-sensitively.  The merger's iterated
input set is exactly the non-hidden regular files of the directory whose
names end in ".pdf" exactly, minus the output name; the stamper processes
exactly the entries whose names end in ".pdf" or in ".PDF". -/
theorem c9_amended_case_sensitive_selection (folderPath : String) (entries : List Entry)
    (writeResult : Except String Unit) (output_name : String) (e : Entry)
    (dir2 : String) (sfiles : List SFile) (g : SFile) (fs : Int) (pos : Int × Int)
    (col : Int × Int × Int) :
    (e ∈ (merge_pdfs_in_folder folderPath true entries writeResult output_name).inputs ↔
      e ∈ entries ∧ mergerSelects e = true ∧ e.name ≠ output_name) ∧
    ((process_pdfs_in_directory dir2 true true (Except.ok ()) sfiles fs pos col).proceeded =
        true →
      (g ∈ (process_pdfs_in_directory dir2 true true (Except.ok ()) sfiles fs pos col).processed
        ↔ g ∈ sfiles ∧ (endsWithS g.name ".pdf" || endsWithS g.name ".PDF") = true)) := by
  constructor
  · simp only [merge_pdfs_in_folder]
    rw [if_neg (show ¬((!true) = true) by simp)]
    by_cases hF : ((entries.filter mergerSelects).filter
        fun e => e.name != output_name).isEmpty = true
    · rw [if_pos hF]
      have hempty : (entries.filter mergerSelects).filter
          (fun e => e.name != output_name) = [] := List.isEmpty_iff.1 hF
      constructor
      · intro he
        cases he
      · rintro ⟨h1, h2, h3⟩
        have : e ∈ (entries.filter mergerSelects).filter (fun e => e.name != output_name) := by
          rw [List.mem_filter, List.mem_filter]
          exact ⟨⟨h1, h2⟩, by simpa [bne_iff_ne] using h3⟩
        rw [hempty] at this
        cases this
    · rw [if_neg hF]
      rcases hml : mergeLoop (sortEntries
          (fun a b => keyLe (natural_sort_key a.name) (natural_sort_key b.name))
          ((entries.filter mergerSelects).filter fun e => e.name != output_name)) [] []
        with ⟨pages, logv, abortv⟩
      have hinp : e ∈ (sortEntries
          (fun a b => keyLe (natural_sort_key a.name) (natural_sort_key b.name))
          ((entries.filter mergerSelects).filter fun e => e.name != output_name)) ↔
          e ∈ entries ∧ mergerSelects e = true ∧ e.name ≠ output_name := by
        rw [mem_sortEntries, List.mem_filter, List.mem_filter]
        constructor
        · rintro ⟨⟨h1, h2⟩, h3⟩
          exact ⟨h1, h2, by simpa [bne_iff_ne] using h3⟩
        · rintro ⟨h1, h2, h3⟩
          exact ⟨⟨h1, h2⟩, by simpa [bne_iff_ne] using h3⟩
      cases abortv with
      | some msg => exact hinp
      | none => cases writeResult with
        | ok u => exact hinp
        | error msg => exact hinp
  · simp only [process_pdfs_in_directory]
    rw [if_neg (show ¬((!true) = true) by simp)]
    rw [if_neg (show ¬((!true) = true) by simp)]
    by_cases hF : ((sfiles.filter fun f => endsWithS f.name ".pdf") ++
        (sfiles.filter fun f => endsWithS f.name ".PDF")).isEmpty = true
    · rw [if_pos hF]
      intro hp
      cases hp
    · rw [if_neg hF]
      rcases hfold : ((sfiles.filter fun f => endsWithS f.name ".pdf") ++
          (sfiles.filter fun f => endsWithS f.name ".PDF")).foldl
          (stampStep dir2 fs pos col) ([], 0, []) with ⟨w, sc, ll⟩
      intro _
      show g ∈ (sfiles.filter fun f => endsWithS f.name ".pdf") ++
        (sfiles.filter fun f => endsWithS f.name ".PDF") ↔ _
      rw [List.mem_append, List.mem_filter, List.mem_filter, Bool.or_eq_true]
      tauto

theorem c9_amended_case_sensitive_selection_witness :
    ((⟨"a.pdf", true, Except.ok (), Except.ok [1]⟩ : Entry) ∈
        (merge_pdfs_in_folder "d" true [⟨"a.pdf", true, Except.ok (), Except.ok [1]⟩]
          (Except.ok ()) "ALL.pdf").inputs ↔
      (⟨"a.pdf", true, Except.ok (), Except.ok [1]⟩ : Entry) ∈
          [⟨"a.pdf", true, Except.ok (), Except.ok [1]⟩] ∧
        mergerSelects ⟨"a.pdf", true, Except.ok (), Except.ok [1]⟩ = true ∧
        ("a.pdf" : String) ≠ "ALL.pdf") ∧
    ((⟨"B.PDF", Except.ok [[]], Except.ok ()⟩ : SFile) ∈
        (process_pdfs_in_directory "d" true true (Except.ok ())
          [⟨"B.PDF", Except.ok [[]], Except.ok ()⟩] 24 (50, 80) (0, 0, 0)).processed ↔
      (⟨"B.PDF", Except.ok [[]], Except.ok ()⟩ : SFile) ∈
          [⟨"B.PDF", Except.ok [[]], Except.ok ()⟩] ∧
        (endsWithS "B.PDF" ".pdf" || endsWithS "B.PDF" ".PDF") = true) := by
  have h1 := (c9_amended_case_sensitive_selection "d"
    [⟨"a.pdf", true, Except.ok (), Except.ok [1]⟩] (Except.ok ()) "ALL.pdf"
    ⟨"a.pdf", true, Except.ok (), Except.ok [1]⟩ "d"
    [⟨"B.PDF", Except.ok [[]], Except.ok ()⟩] ⟨"B.PDF", Except.ok [[]], Except.ok ()⟩
    24 (50, 80) (0, 0, 0))
  exact ⟨h1.1, h1.2 (by decide)⟩

/-- Any value the font-size prompt returns is positive. -/
theorem fontSize_result_positive (inputs0 : List String) (n0 : Int)
    (h0 : get_font_size_from_user inputs0 = some n0) : 0 < n0 := by
  have H : ∀ (L : Nat) (inputs : List String) (n : Int), inputs.length = L →
      get_font_size_from_user inputs = some n → 0 < n := by
    intro L
    induction L using Nat.strong_induction_on with
    | _ L ih =>
      intro inputs n hlen h
      cases inputs with
      | nil => simp [get_font_size_from_user] at h
      | cons s rest =>
        simp only [get_font_size_from_user] at h
        have hrest : rest.length < L := by
          rw [← hlen, List.length_cons]
          omega
        by_cases ht : stripS s = ""
        · rw [if_pos ht] at h
          cases Option.some_inj.1 h
          decide
        · rw [if_neg ht] at h
          cases hp : pyInt (stripS s).data with
          | none =>
            simp only [hp] at h
            exact ih rest.length hrest rest n rfl h
          | some k =>
            simp only [hp] at h
            by_cases hk : k ≤ 0
            · rw [if_pos hk] at h
              exact ih rest.length hrest rest n rfl h
            · rw [if_neg hk] at h
              by_cases hk2 : 200 < k
              · rw [if_pos hk2] at h
                cases rest with
                | nil => exact Option.noConfusion h
                | cons c rest2 =>
                  have h2 : (if lowerStr (stripS c) = "y" then some k
                      else get_font_size_from_user rest2) = some n := h
                  have hrest2 : rest2.length < L := by
                    rw [← hlen, List.length_cons, List.length_cons]
                    omega
                  by_cases hy : lowerStr (stripS c) = "y"
                  · rw [if_pos hy] at h2
                    cases Option.some_inj.1 h2
                    omega
                  · rw [if_neg hy] at h2
                    exact ih rest2.length hrest2 rest2 n rfl h2
              · rw [if_neg hk2] at h
                cases Option.some_inj.1 h
                omega
  exact H inputs0.length inputs0 n0 rfl h0

/-- A value above 200 is only ever returned after a confirming input that
strips and lowercases to "y". -/
theorem fontSize_large_confirmed (inputs0 : List String) (n0 : Int)
    (h0 : get_font_size_from_user inputs0 = some n0) (hn0 : 200 < n0) :
    ∃ c ∈ inputs0, lowerStr (stripS c) = "y" := by
  have H : ∀ (L : Nat) (inputs : List String) (n : Int), inputs.length = L →
      get_font_size_from_user inputs = some n → 200 < n →
      ∃ c ∈ inputs, lowerStr (stripS c) = "y" := by
    intro L
    induction L using Nat.strong_induction_on with
    | _ L ih =>
      intro inputs n hlen h hn
      cases inputs with
      | nil => simp [get_font_size_from_user] at h
      | cons s rest =>
        simp only [get_font_size_from_user] at h
        have hrest : rest.length < L := by
          rw [← hlen, List.length_cons]
          omega
        by_cases ht : stripS s = ""
        · rw [if_pos ht] at h
          cases Option.some_inj.1 h
          omega
        · rw [if_neg ht] at h
          cases hp : pyInt (stripS s).data with
          | none =>
            simp only [hp] at h
            obtain ⟨c, hc, hy⟩ := ih rest.length hrest rest n rfl h hn
            exact ⟨c, List.mem_cons_of_mem _ hc, hy⟩
          | some k =>
            simp only [hp] at h
            by_cases hk : k ≤ 0
            · rw [if_pos hk] at h
              obtain ⟨c, hc, hy⟩ := ih rest.length hrest rest n rfl h hn
              exact ⟨c, List.mem_cons_of_mem _ hc, hy⟩
            · rw [if_neg hk] at h
              by_cases hk2 : 200 < k
              · rw [if_pos hk2] at h
                cases rest with
                | nil => exact Option.noConfusion h
                | cons c rest2 =>
                  have h2 : (if lowerStr (stripS c) = "y" then some k
                      else get_font_size_from_user rest2) = some n := h
                  have hrest2 : rest2.length < L := by
                    rw [← hlen, List.length_cons, List.length_cons]
                    omega
                  by_cases hy : lowerStr (stripS c) = "y"
                  · exact ⟨c, List.mem_cons_of_mem _ (List.mem_cons_self _ _), hy⟩
                  · rw [if_neg hy] at h2
                    obtain ⟨c2, hc2, hy2⟩ := ih rest2.length hrest2 rest2 n rfl h2 hn
                    exact ⟨c2, List.mem_cons_of_mem _ (List.mem_cons_of_mem _ hc2), hy2⟩
              · rw [if_neg hk2] at h
                cases Option.some_inj.1 h
                omega
  exact H inputs0.length inputs0 n0 rfl h0 hn0

/-- C8: the font-size prompt returns only validated positive integers: an
empty (stripped) response yields the default 30; non-numeric input and
non-positive values re-prompt; a value above 200 is returned only after the
user confirms with "y" (case-insensitively, stripped), re-prompting on
decline; values in 1..200 are returned at once; and exhausting the inputs
while still prompting is the only other outcome. -/
theorem c8_font_prompt_validation :
    (∀ (inputs : List String) (n : Int), get_font_size_from_user inputs = some n → 0 < n) ∧
    (∀ (s : String) (rest : List String), stripS s = "" →
      get_font_size_from_user (s :: rest) = some 30) ∧
    (∀ (s : String) (rest : List String), stripS s ≠ "" → pyInt (stripS s).data = none →
      get_font_size_from_user (s :: rest) = get_font_size_from_user rest) ∧
    (∀ (s : String) (rest : List String) (k : Int), pyInt (stripS s).data = some k → k ≤ 0 →
      get_font_size_from_user (s :: rest) = get_font_size_from_user rest) ∧
    (∀ (s c : String) (rest : List String) (k : Int), pyInt (stripS s).data = some k →
      200 < k →
      (lowerStr (stripS c) = "y" → get_font_size_from_user (s :: c :: rest) = some k) ∧
      (lowerStr (stripS c) ≠ "y" →
        get_font_size_from_user (s :: c :: rest) = get_font_size_from_user rest)) ∧
    (∀ (s : String) (rest : List String) (k : Int), pyInt (stripS s).data = some k →
      0 < k → k ≤ 200 → get_font_size_from_user (s :: rest) = some k) ∧
    (∀ (inputs : List String) (n : Int), get_font_size_from_user inputs = some n → 200 < n →
      ∃ c ∈ inputs, lowerStr (stripS c) = "y") := by
  have hne_of_some : ∀ (s : String) (k : Int), pyInt (stripS s).data = some k →
      ¬(stripS s = "") := by
    intro s k hp ht
    rw [ht] at hp
    cases hp
  refine ⟨fontSize_result_positive, ?_, ?_, ?_, ?_, ?_, fontSize_large_confirmed⟩
  · intro s rest ht
    simp only [get_font_size_from_user]
    rw [if_pos ht]
  · intro s rest ht hp
    simp only [get_font_size_from_user]
    rw [if_neg ht]
    simp only [hp]
  · intro s rest k hp hk
    simp only [get_font_size_from_user]
    rw [if_neg (hne_of_some s k hp)]
    simp only [hp]
    rw [if_pos hk]
  · intro s c rest k hp hk2
    have hkpos : ¬(k ≤ 0) := by omega
    constructor
    · intro hy
      simp only [get_font_size_from_user]
      rw [if_neg (hne_of_some s k hp)]
      simp only [hp]
      rw [if_neg hkpos, if_pos hk2, if_pos hy]
    · intro hy
      simp only [get_font_size_from_user]
      rw [if_neg (hne_of_some s k hp)]
      simp only [hp]
      rw [if_neg hkpos, if_pos hk2, if_neg hy]
  · intro s rest k hp hk0 hk200
    have h1 : ¬(k ≤ 0) := by omega
    have h2 : ¬(200 < k) := by omega
    simp only [get_font_size_from_user]
    rw [if_neg (hne_of_some s k hp)]
    simp only [hp]
    rw [if_neg h1, if_neg h2]

theorem c8_font_prompt_validation_witness :
    (0 : Int) < 30 ∧
    get_font_size_from_user ["", "x"] = some 30 ∧
    get_font_size_from_user ["abc", "17"] = get_font_size_from_user ["17"] ∧
    get_font_size_from_user ["-5", "17"] = get_font_size_from_user ["17"] ∧
    get_font_size_from_user ["500", "Y", "9"] = some 500 ∧
    get_font_size_from_user ["500", "n", "17"] = get_font_size_from_user ["17"] ∧
    get_font_size_from_user [" 17 "] = some 17 ∧
    ∃ c ∈ ["500", "y"], lowerStr (stripS c) = "y" := by
  refine ⟨c8_font_prompt_validation.1 ["", "x"] 30 (by decide),
    c8_font_prompt_validation.2.1 "" ["x"] (by decide),
    c8_font_prompt_validation.2.2.1 "abc" ["17"] (by decide) (by decide),
    c8_font_prompt_validation.2.2.2.1 "-5" ["17"] (-5) (by decide) (by decide),
    (c8_font_prompt_validation.2.2.2.2.1 "500" "Y" ["9"] 500 (by decide) (by decide)).1
      (by decide),
    (c8_font_prompt_validation.2.2.2.2.1 "500" "n" ["17"] 500 (by decide) (by decide)).2
      (by decide),
    c8_font_prompt_validation.2.2.2.2.2.1 " 17 " [] 17 (by decide) (by decide) (by decide),
    c8_font_prompt_validation.2.2.2.2.2.2 ["500", "y"] 500 (by decide) (by decide)⟩
